import Mathlib

set_option maxRecDepth 4000

/-!
Verification development for the PubMedScraper repository
(`src/config.py` and `src/main.py`).

The pure core of the program — query construction (`construct_query`),
record normalization (`process_record`), and the error-handling shape of
`fetch_records` and the `run` loop — is embedded shallowly below.
Python strings are Lean `String`s (reasoned about through their `List Char`
data); a MEDLINE record is a partial map from field tags to values that are
either a single string or a list of strings; a caught exception is `none`.
-/

/-! ## A small executable string toolkit (over `List Char`)

`isPre p l` is Python's "l.startswith(p)"; `containsSub p l` is Python's
`p in l`; `splitHead sep l` is `l.split(sep)[0]`; `countOcc p l` counts the
(possibly overlapping) start positions at which `p` occurs in `l`. -/

def isPre : List Char → List Char → Bool
  | [], _ => true
  | _ :: _, [] => false
  | a :: as, b :: bs => a == b && isPre as bs

def containsSub (p : List Char) : List Char → Bool
  | [] => isPre p []
  | c :: l => isPre p (c :: l) || containsSub p l

def splitHead (sep : List Char) : List Char → List Char
  | [] => []
  | c :: l => if isPre sep (c :: l) then [] else c :: splitHead sep l

def countOcc (p : List Char) : List Char → Nat
  | [] => if isPre p [] then 1 else 0
  | c :: l => (if isPre p (c :: l) then 1 else 0) + countOcc p l

/-! ## Regular-expression fragments used by `process_record`

`re.search(r"\d{4}", dp)`: the leftmost position with four consecutive
digits (`\d` modelled as an ASCII digit).  `re.search(r"(10\.\S+)", lid)`:
the leftmost occurrence of "10." followed by a maximal nonempty run of
non-whitespace. -/

def fourDigitsAt : List Char → Bool
  | a :: b :: c :: d :: _ => a.isDigit && b.isDigit && c.isDigit && d.isDigit
  | _ => false

def searchFourDigits : List Char → Option (List Char)
  | [] => none
  | c :: l => if fourDigitsAt (c :: l) then some ((c :: l).take 4) else searchFourDigits l

def doiRegexAt : List Char → Option (List Char)
  | a :: b :: c :: rest =>
    if a = '1' ∧ b = '0' ∧ c = '.' then
      let run := rest.takeWhile (fun ch => !ch.isWhitespace)
      if run = [] then none else some (a :: b :: c :: run)
    else none
  | _ => none

def searchDoi : List Char → Option (List Char)
  | [] => none
  | c :: l =>
    match doiRegexAt (c :: l) with
    | some m => some m
    | none => searchDoi l

/-- Python `str.lower()` (ASCII case mapping, which is all the configured
journal names exercise). -/
def strLower (s : String) : String := ⟨s.data.map Char.toLower⟩

/-! ## `src/config.py`: the literal configuration strings -/

def RCT_QUERY : String :=
  "(\"Randomized Controlled Trial\"[Publication Type] OR \"Randomized Controlled Trials as Topic\"[MeSH Terms] OR \"Random Allocation\"[MeSH Terms] OR \"randomized\"[Title/Abstract] OR \"randomised\"[Title/Abstract] OR \"randomly\"[Title/Abstract])"

def CRITICAL_QUERY : String :=
  "(\"critical care\"[MeSH Terms] OR \"intensive care units\"[MeSH Terms] OR \"critical illness\"[MeSH Terms] OR \"ICU\"[Title/Abstract] OR \"high dependency unit*\"[Title/Abstract] OR \"respiration, artificial\"[MeSH Terms] OR \"intensive care\"[Title/Abstract] OR \"intensive care unit\"[Title/Abstract] OR \"critical illness\"[Title/Abstract] OR \"Critical Care\"[Title/Abstract] OR \"critical ill*\"[Title/Abstract] OR \"Intensive therapy\"[Title/Abstract] OR \"mechanical ventilation\"[Title/Abstract] OR \"mechanical ventilat*\"[Title/Abstract]) OR (\"mechanical\"[Title/Abstract] AND \"ventilation\"[Title/Abstract]))"

def HUMANS_FILTER : String := "\"humans\"[MeSH Terms]"

def EXCLUSION_QUERY : String :=
  "NOT (\"systematic review\"[Publication Type] OR \"Meta-Analysis\"[Publication Type] OR \"Review\"[Publication Type])"

def DATE_QUERY : String := "(\"2020/01/01\"[PDAT]:\"2025/01/01\"[PDAT])"

def JOURNALS : List String :=
  ["The New England Journal of Medicine", "Lancet", "JAMA",
   "American Journal of Respiratory and Critical Care Medicine",
   "Intensive Care Medicine", "Critical Care Medicine", "Critical care",
   "Chest", "BMJ", "Annals of Intensive care", "JAMA Internal Medicine",
   "JAMA Network Open", "Annals of the American Thoracic Society"]

/-- Python `config.LINK_TEMPLATE.format(pmid=pmid)` with
`LINK_TEMPLATE = "https://pubmed.ncbi.nlm.nih.gov/\x7bpmid\x7d/"`. -/
def LINK_TEMPLATE (pmid : String) : String :=
  "https://pubmed.ncbi.nlm.nih.gov/" ++ pmid ++ "/"

def OUTPUT_HEADERS : List String :=
  ["Journal_TTL", "Journal_ABBRV", "Title", "Year", "Pages", "Issue", "Volume",
   "First Author", "First Author Affiliation", "Last Author",
   "Last Author Affiliation", "DOI", "Link", "Authors"]

/-! ## `PubMedScraper.construct_query` -/

/-- Python `journal_query = f'"\x7bjournal\x7d"[Journal]'`. -/
def journal_query (journal : String) : String := "\"" ++ journal ++ "\"[Journal]"

/-- Python `PubMedScraper.construct_query` (src/main.py lines 40-59),
one string expression mirroring the f-string (its literal text is split
at clause boundaries; the resulting string is identical). -/
def construct_query (journal : String) : String :=
  "(" ++ RCT_QUERY ++ " AND " ++ CRITICAL_QUERY ++ " AND " ++ "(" ++ journal_query journal
    ++ ")" ++ " AND " ++ DATE_QUERY ++ " "
    ++ (if strLower journal = "annals of intensive care" then ")"
        else "AND " ++ HUMANS_FILTER ++ ")")
    ++ " " ++ "NOT " ++ EXCLUSION_QUERY

/-- The part of `construct_query journal` before the conditional
human-subjects clause: everything up to and including the trailing space
after the date clause. -/
def queryHead (journal : String) : String :=
  "(" ++ RCT_QUERY ++ " AND " ++ CRITICAL_QUERY ++ " AND " ++ "(" ++ journal_query journal
    ++ ")" ++ " AND " ++ DATE_QUERY ++ " "

/-- The characters of the journal-match clause `("N"[Journal])` after the
journal name. -/
def clauseTail : List Char := "\"[Journal]".data ++ ")".data

/-- The characters of `construct_query N` strictly before the journal-match
clause (independent of `N`). -/
def queryHeadChars : List Char :=
  "(".data ++ RCT_QUERY.data ++ " AND ".data ++ CRITICAL_QUERY.data ++ " AND ".data

/-- The characters of `construct_query N` strictly after the journal-match
clause when the human-subjects clause is omitted. -/
def queryTailAnnals : List Char :=
  " AND ".data ++ DATE_QUERY.data ++ " ".data ++ ")".data
    ++ " ".data ++ "NOT ".data ++ EXCLUSION_QUERY.data

/-- The characters of `construct_query N` strictly after the journal-match
clause when the human-subjects clause is included. -/
def queryTailOther : List Char :=
  " AND ".data ++ DATE_QUERY.data ++ " ".data
    ++ ("AND ".data ++ HUMANS_FILTER.data ++ ")".data)
    ++ " ".data ++ "NOT ".data ++ EXCLUSION_QUERY.data

/-! ## The raw-record data model

A MEDLINE record (as produced by `Medline.parse`) is a dict whose values
may be absent, a single string, or a list of strings; no schema is
enforced.  Only the tags read by `process_record` are modelled. -/

inductive FieldVal where
  | str : String → FieldVal
  | list : List String → FieldVal
deriving DecidableEq

structure RawRecord where
  JT : Option FieldVal := none
  TA : Option FieldVal := none
  TI : Option FieldVal := none
  DP : Option FieldVal := none
  IP : Option FieldVal := none
  VI : Option FieldVal := none
  PG : Option FieldVal := none
  AU : Option FieldVal := none
  AD : Option FieldVal := none
  LID : Option FieldVal := none
  AID : Option FieldVal := none
  PMID : Option FieldVal := none
deriving DecidableEq

/-- Python truthiness of a string-or-list value. -/
def pyTruthy : FieldVal → Bool
  | .str s => !(s == "")
  | .list l => !(l.isEmpty)

/-- Python `v[0]`: first character of a string (as a 1-character string),
first element of a list; only evaluated by the code on truthy values. -/
def pyFirst : FieldVal → String
  | .str s => ⟨s.data.take 1⟩
  | .list l => l.headD ""

/-- Python `v[-1]`: last character of a string (as a 1-character string),
last element of a list; only evaluated by the code on truthy values. -/
def pyLast : FieldVal → String
  | .str s => ⟨s.data.drop (s.data.length - 1)⟩
  | .list l => l.getLastD ""

/-- Python `str()` of a string-or-list value, as used by
`LINK_TEMPLATE.format(pmid=pmid)` (string-escape corner cases of the list
repr are not modelled; no claim depends on them). -/
def pyStr : FieldVal → String
  | .str s => s
  | .list l => "[" ++ String.intercalate ", " (l.map (fun s => "'" ++ s ++ "'")) ++ "]"

/-- Python `re.search(r"\d{4}", dp)` with the code's default of `""`:
the year extraction of `process_record` (src/main.py lines 100-103). -/
def yearFrom (dp : String) : String :=
  match searchFourDigits dp.data with
  | some m => ⟨m⟩
  | none => ""

/-- The `LID` block of `process_record` (src/main.py lines 117-122): the
value of the local `doi` after it, or `none` when the block raises
(`re.search` applied to a list raises `TypeError`, caught at line 155). -/
def lidDoi : FieldVal → Option String
  | .str s =>
    if s = "" then some ""
    else some (match searchDoi s.data with
               | some m => (⟨m⟩ : String)
               | none => "")
  | .list l => if l.isEmpty then some "" else none

/-- The `for aid in aids: ... break` loop of `process_record`
(src/main.py lines 127-130). -/
def firstDoiAid : List String → Option String
  | [] => none
  | a :: rest =>
    if containsSub "[doi]".data a.data then some ⟨splitHead " [doi]".data a.data⟩
    else firstDoiAid rest

/-- The `AID` block of `process_record` (src/main.py lines 124-133),
entered with `doi == ""`; it leaves `doi` unchanged (empty) when the tag
is absent or no entry contains `"[doi]"`. -/
def aidDoi : Option FieldVal → String
  | none => ""
  | some (.list l) => (firstDoiAid l).getD ""
  | some (.str s) =>
    if containsSub "[doi]".data s.data then ⟨splitHead " [doi]".data s.data⟩
    else ""

/-- The fourteen-field normalized output row built at
src/main.py lines 138-153 (dict keys become structure fields; spaces in
keys become underscores). -/
structure Row where
  Journal_TTL : FieldVal
  Journal_ABBRV : FieldVal
  Title : FieldVal
  Year : String
  Pages : FieldVal
  Issue : FieldVal
  Volume : FieldVal
  First_Author : String
  First_Author_Affiliation : String
  Last_Author : String
  Last_Author_Affiliation : String
  DOI : String
  Link : String
  Authors : FieldVal
deriving DecidableEq

/-- Python `PubMedScraper.process_record` (src/main.py lines 89-157).
`none` models the `except` branch returning `{}` (a falsy dict): within
the string-or-list value domain the body raises exactly when `re.search`
is handed a list, i.e. when `DP` is a list or `LID` is a nonempty list. -/
def process_record (rec : RawRecord) : Option Row :=
  let journal_title := rec.JT.getD (.str "")
  let journal_abstract := rec.TA.getD (.str "")
  let title := rec.TI.getD (.str "")
  match rec.DP.getD (.str "") with
  | .list _ => none
  | .str dp =>
    let year := yearFrom dp
    let issue := rec.IP.getD (.str "")
    let volume := rec.VI.getD (.str "")
    let pages := rec.PG.getD (.str "")
    let authors := rec.AU.getD (.list [])
    let first_author := if pyTruthy authors then pyFirst authors else ""
    let last_author := if pyTruthy authors then pyLast authors else ""
    let affiliations := rec.AD.getD (.str "")
    let first_author_affiliation := if pyTruthy affiliations then pyFirst affiliations else ""
    let last_author_affiliation := if pyTruthy affiliations then pyLast affiliations else ""
    match lidDoi (rec.LID.getD (.str "")) with
    | none => none
    | some d0 =>
      let doi := if d0 = "" then aidDoi rec.AID else d0
      let pmid := rec.PMID.getD (.str "")
      let link := if pyTruthy pmid then LINK_TEMPLATE (pyStr pmid) else ""
      some
        { Journal_TTL := journal_title
          Journal_ABBRV := journal_abstract
          Title := title
          Year := year
          Pages := pages
          Issue := issue
          Volume := volume
          First_Author := first_author
          First_Author_Affiliation := first_author_affiliation
          Last_Author := last_author
          Last_Author_Affiliation := last_author_affiliation
          DOI := doi
          Link := link
          Authors := authors }

/-! ## `PubMedScraper.fetch_records` and the `run` loop -/

/-- Python `PubMedScraper.fetch_records` (src/main.py lines 61-87).  The
`Entrez.esearch`/`Entrez.read` call is modelled by its outcome (the
`IdList`, or an exception), the `Entrez.efetch`/`Medline.parse` call by a
function from the id list to an outcome; the surrounding `try/except`
turns any exception into `[]`. -/
def fetch_records (searchOutcome : Except String (List String))
    (fetchSvc : List String → Except String (List RawRecord)) : List RawRecord :=
  match searchOutcome with
  | .error _ => []
  | .ok pmid_list =>
    if pmid_list.isEmpty then []
    else
      match fetchSvc pmid_list with
      | .error _ => []
      | .ok records => records

/-- One iteration of the inner loop of `PubMedScraper.run`
(src/main.py lines 198-201): `if processed: self.all_data.append(processed)`. -/
def appendProcessed (acc : List Row) (rec : RawRecord) : List Row :=
  match process_record rec with
  | some row => acc ++ [row]
  | none => acc

/-- The record-processing loop of `PubMedScraper.run` over one fetched
batch, starting from an empty accumulator. -/
def processAll (recs : List RawRecord) : List Row :=
  recs.foldl appendProcessed []

/-! ## Spec-side definitions (for refinement comparisons only)

These two definitions follow the specification's words, not the code;
each is compared against the code-derived definitions in the theorems. -/

/-- Holds of a list starting with a maximal digit run of length exactly
four: four digits followed by a non-digit or the end. -/
def exactlyFourHere : List Char → Bool
  | a :: b :: c :: d :: rest =>
    a.isDigit && b.isDigit && c.isDigit && d.isDigit && !(rest.headD ' ').isDigit
  | _ => false

/-- Scan for the first maximal digit run of length exactly four; `prev` is
the character just before the current position (`none` at the start), so a
run boundary is a non-digit `prev`. -/
def specExactFourRunAux : Option Char → List Char → Option (List Char)
  | _, [] => none
  | prev, c :: rest =>
    if (match prev with | some p => !p.isDigit | none => true)
        && exactlyFourHere (c :: rest)
    then some ((c :: rest).take 4)
    else specExactFourRunAux (some c) rest

/-- Follows the spec's words for the Year rule (§4.2): "the first run of
exactly four digits found anywhere in the date-of-publication field" — the
first maximal digit run whose length is exactly four, else `""`. -/
def specExactFourRun (s : String) : String :=
  ⟨(specExactFourRunAux none s.data).getD []⟩

/-- Follows the spec's words for DOI resolution (§4.2, claim C5), step (a):
search the link-identifier field for a substring matching "10." followed
by non-whitespace; `none` when the field yields nothing (or is not a
string). -/
def spec_doi_stepA (rec : RawRecord) : Option String :=
  match rec.LID.getD (.str "") with
  | .str s => (searchDoi s.data).map (fun m => (⟨m⟩ : String))
  | .list _ => none

/-- Follows the spec's words for DOI resolution (§4.2, claim C5), step (b):
the article-identifier field, a single string or a list of strings, viewed
uniformly as a sequence of entries; the first entry containing the literal
marker `"[doi]"` determines the DOI as the text before the `" [doi]"`
separator (spec §8), else `""`. -/
def spec_doi_entries : Option FieldVal → List String
  | none => []
  | some (.str s) => [s]
  | some (.list l) => l

def spec_doi_stepB (rec : RawRecord) : String :=
  match (spec_doi_entries rec.AID).find? (fun a => containsSub "[doi]".data a.data) with
  | some a => ⟨splitHead " [doi]".data a.data⟩
  | none => ""

/-- Follows the spec's words for DOI resolution (§4.2, claim C5): step (a),
and only if it yields nothing, step (b). -/
def spec_doi (rec : RawRecord) : String :=
  match spec_doi_stepA rec with
  | some d => d
  | none => spec_doi_stepB rec

/-! ## Toolkit lemmas -/

theorem strData_ext (a b : String) (h : a.data = b.data) : a = b := by
  cases a; cases b; cases h; rfl

theorem isPre_iff (p l : List Char) : isPre p l = true ↔ ∃ t, l = p ++ t := by
  induction p generalizing l with
  | nil => simp [isPre]
  | cons a as ih =>
    cases l with
    | nil =>
      simp only [isPre, List.cons_append, Bool.false_eq_true, false_iff]
      rintro ⟨t, ht⟩
      exact List.noConfusion ht
    | cons b bs =>
      simp only [isPre, Bool.and_eq_true, beq_iff_eq, List.cons_append]
      constructor
      · rintro ⟨rfl, h⟩
        obtain ⟨t, rfl⟩ := (ih bs).mp h
        exact ⟨t, rfl⟩
      · rintro ⟨t, ht⟩
        injection ht with h1 h2
        exact ⟨h1.symm, (ih bs).mpr ⟨t, h2⟩⟩

theorem containsSub_iff (p l : List Char) :
    containsSub p l = true ↔ ∃ s t, l = s ++ p ++ t := by
  induction l with
  | nil =>
    rw [containsSub, isPre_iff]
    constructor
    · rintro ⟨t, ht⟩
      exact ⟨[], t, ht⟩
    · rintro ⟨s, t, h⟩
      rcases List.append_eq_nil.mp (List.append_eq_nil.mp h.symm).1 with ⟨rfl, rfl⟩
      exact ⟨t, h⟩
  | cons c l ih =>
    rw [containsSub, Bool.or_eq_true, isPre_iff, ih]
    constructor
    · rintro (⟨t, ht⟩ | ⟨s, t, ht⟩)
      · exact ⟨[], t, ht⟩
      · exact ⟨c :: s, t, by rw [ht]; simp⟩
    · rintro ⟨s, t, ht⟩
      cases s with
      | nil => exact Or.inl ⟨t, by simpa using ht⟩
      | cons a s =>
        rw [List.cons_append, List.cons_append] at ht
        injection ht with h1 h2
        exact Or.inr ⟨s, t, h2⟩

theorem containsSub_map (f : Char → Char) (p l : List Char)
    (h : containsSub p l = true) :
    containsSub (p.map f) (l.map f) = true := by
  obtain ⟨s, t, rfl⟩ := (containsSub_iff p l).mp h
  exact (containsSub_iff _ _).mpr ⟨s.map f, t.map f, by simp⟩

theorem splitHead_of_not_contains (sep l : List Char)
    (h : containsSub sep l = false) : splitHead sep l = l := by
  induction l with
  | nil => rfl
  | cons c l ih =>
    rw [containsSub, Bool.or_eq_false_iff] at h
    rw [splitHead, if_neg (by simp [h.1]), ih h.2]

theorem splitHead_append (sep l : List Char) (h : containsSub sep l = true) :
    ∃ t, l = splitHead sep l ++ sep ++ t := by
  induction l with
  | nil =>
    rw [containsSub, isPre_iff] at h
    obtain ⟨t, ht⟩ := h
    rcases List.append_eq_nil.mp ht.symm with ⟨rfl, rfl⟩
    exact ⟨[], rfl⟩
  | cons c l ih =>
    rw [splitHead]
    by_cases hp : isPre sep (c :: l) = true
    · rw [if_pos hp]
      obtain ⟨t, ht⟩ := (isPre_iff _ _).mp hp
      exact ⟨t, by simpa using ht⟩
    · rw [if_neg hp]
      have hc : containsSub sep l = true := by
        rw [containsSub, Bool.or_eq_true] at h
        rcases h with h | h
        · exact absurd h hp
        · exact h
      obtain ⟨t, ht⟩ := ih hc
      refine ⟨t, ?_⟩
      rw [List.cons_append, List.cons_append, ← ht]

theorem splitHead_min (sep : List Char) (pre : List Char) :
    ∀ l t : List Char, l = pre ++ sep ++ t →
      (splitHead sep l).length ≤ pre.length := by
  induction pre with
  | nil =>
    intro l t h
    subst h
    rcases hm : sep ++ t with _ | ⟨c, m⟩
    · simp [splitHead, hm]
    · have hp : isPre sep (c :: m) = true := (isPre_iff _ _).mpr ⟨t, hm.symm⟩
      simp [splitHead, hm, hp]
  | cons a pre ih =>
    intro l t h
    subst h
    rw [List.cons_append, List.cons_append, splitHead]
    split
    · simp
    · simpa using Nat.succ_le_succ (ih (pre ++ sep ++ t) t rfl)

theorem mem_of_getElem?_eq_some {l : List Char} {n : Nat} {a : Char}
    (h : l[n]? = some a) : a ∈ l := by
  obtain ⟨hlt, rfl⟩ := List.getElem?_eq_some.mp h
  exact List.getElem_mem hlt

theorem getElem?_append_middle (a b : List Char) (x : Char) :
    (a ++ x :: b)[a.length]? = some x := by
  rw [List.getElem?_append_right (Nat.le_refl a.length)]
  simp

theorem isPre_getElem? (p l : List Char) (i : Nat)
    (h : isPre p (l.drop i) = true) (j : Nat) (hj : j < p.length) :
    l[i + j]? = p[j]? := by
  obtain ⟨t, ht⟩ := (isPre_iff _ _).mp h
  rw [← List.getElem?_drop, ht, List.getElem?_append_left hj]

theorem countOcc_eq_countP (p l : List Char) :
    countOcc p l = (List.range (l.length + 1)).countP (fun i => isPre p (l.drop i)) := by
  induction l with
  | nil =>
    rw [countOcc]
    have h1 : List.range (List.length ([] : List Char) + 1) = [0] := rfl
    rw [h1]
    rcases h : isPre p [] with _ | _ <;> simp [List.countP_cons, h]
  | cons c l ih =>
    have key : (List.range ((c :: l).length + 1)).countP (fun i => isPre p ((c :: l).drop i))
        = (if isPre p (c :: l) then 1 else 0)
          + (List.range (l.length + 1)).countP (fun i => isPre p (l.drop i)) := by
      rw [List.length_cons, List.range_succ_eq_map, List.countP_cons, List.countP_map]
      have hcongr :
          (List.range (l.length + 1)).countP ((fun i => isPre p ((c :: l).drop i)) ∘ Nat.succ)
            = (List.range (l.length + 1)).countP (fun i => isPre p (l.drop i)) :=
        List.countP_congr (fun a _ => Iff.rfl)
      rw [hcongr]
      rcases h : isPre p (c :: l) with _ | _ <;> simp [h, Nat.add_comm]
    rw [countOcc, key, ih]

theorem countP_range_eq_one (P : Nat → Bool) :
    ∀ n u : Nat, u < n → P u = true → (∀ i, i < n → P i = true → i = u) →
      (List.range n).countP P = 1 := by
  intro n
  induction n with
  | zero => intro u hu _ _; omega
  | succ n ih =>
    intro u hu hP huniq
    rw [List.range_succ, List.countP_append]
    by_cases hun : u = n
    · have hPn : P n = true := by rw [← hun]; exact hP
      have h0 : (List.range n).countP P = 0 := by
        rw [List.countP_eq_zero]
        intro a ha hPa
        have h1 := huniq a (Nat.lt_succ_of_lt (List.mem_range.mp ha)) hPa
        have h2 := List.mem_range.mp ha
        omega
      rw [h0]
      simp [List.countP_cons, hPn]
    · have hu' : u < n := by omega
      have hn : P n = false := by
        rcases h : P n with _ | _
        · rfl
        · have := huniq n (Nat.lt_succ_self n) h
          omega
      rw [ih u hu' hP (fun i hi hPi => huniq i (Nat.lt_succ_of_lt hi) hPi)]
      simp [List.countP_cons, hn]

/-- The character `'J'` occurs in a built query only inside the
journal-match clause: if the clause `("N"[Journal])` occurs starting at
position `i` of `U ++ ("N"[Journal]) ++ V` with `'J'`-free `U` and `V`,
then `i` is the canonical position.  (Any other occurrence would force the
clause to be periodic, pushing its `'J'` into `U` or into `V`.) -/
theorem clause_unique_position (U V N : List Char)
    (hU : 'J' ∉ U) (hV : 'J' ∉ V) (i : Nat)
    (h : isPre ('(' :: '"' :: (N ++ clauseTail))
      ((U ++ ('(' :: '"' :: (N ++ clauseTail)) ++ V).drop i) = true) :
    i = U.length := by
  set C : List Char := '(' :: '"' :: (N ++ clauseTail) with hC
  have hClen : C.length = N.length + 13 := by
    have h11 : clauseTail.length = 11 := rfl
    simp [hC, h11]
  have hCsplit : C = (('(' :: '"' :: N) ++ ['"', '[']) ++ ('J' :: "ournal])".data) := by
    have htl : clauseTail = ['"', '['] ++ ('J' :: "ournal])".data) := rfl
    rw [hC, htl]
    simp
  have hJ : C[N.length + 4]? = some 'J' := by
    rw [hCsplit]
    have hlen : (('(' :: '"' :: N) ++ ['"', '[']).length = N.length + 4 := by simp
    rw [← hlen]
    exact getElem?_append_middle _ _ _
  have hocc : ∀ j, j < C.length → (U ++ C ++ V)[i + j]? = C[j]? :=
    fun j hj => isPre_getElem? _ _ i h j hj
  have hcan : ∀ j, j < C.length → (U ++ C ++ V)[U.length + j]? = C[j]? := by
    intro j hj
    rw [List.append_assoc, List.getElem?_append_right (Nat.le_add_right U.length j),
      Nat.add_sub_cancel_left]
    exact List.getElem?_append_left hj
  rcases Nat.lt_trichotomy i U.length with hlt | heq | hgt
  · exfalso
    have he : 0 < U.length - i := by omega
    have hper : ∀ j, U.length - i ≤ j → j < C.length →
        C[j - (U.length - i)]? = C[j]? := by
      intro j h1 h2
      have h3 : j - (U.length - i) < C.length := by
        have := Nat.sub_le j (U.length - i)
        omega
      have hA := hcan (j - (U.length - i)) h3
      have harith : U.length + (j - (U.length - i)) = i + j := by omega
      rw [harith] at hA
      exact hA.symm.trans (hocc j h2)
    have hdesc : ∀ j, j < C.length → C[j]? = some 'J' →
        ∃ r, r < U.length - i ∧ r < C.length ∧ C[r]? = some 'J' := by
      intro j
      induction j using Nat.strong_induction_on with
      | _ j ih =>
        intro hj hJj
        by_cases hcase : j < U.length - i
        · exact ⟨j, hcase, hj, hJj⟩
        · have h1 : U.length - i ≤ j := by omega
          have h2 := hper j h1 hj
          rw [hJj] at h2
          exact ih (j - (U.length - i)) (by omega) (by omega) h2
    obtain ⟨r, hr1, hr2, hr3⟩ := hdesc (N.length + 4) (by omega) hJ
    have h5 := hocc r hr2
    rw [hr3] at h5
    have h6 : i + r < U.length := by omega
    rw [List.append_assoc, List.getElem?_append_left h6] at h5
    exact hU (mem_of_getElem?_eq_some h5)
  · exact heq
  · exfalso
    have he : 0 < i - U.length := by omega
    have hper : ∀ j, j + (i - U.length) < C.length →
        C[j + (i - U.length)]? = C[j]? := by
      intro j hj
      have hj' : j < C.length := by omega
      have hA := hcan (j + (i - U.length)) hj
      have harith : U.length + (j + (i - U.length)) = i + j := by omega
      rw [harith] at hA
      exact hA.symm.trans (hocc j hj')
    have hasc : ∀ k j, C.length - j = k → j < C.length → C[j]? = some 'J' →
        ∃ r, r < C.length ∧ C.length ≤ r + (i - U.length) ∧ C[r]? = some 'J' := by
      intro k
      induction k using Nat.strong_induction_on with
      | _ k ih =>
        intro j hk hj hJj
        by_cases hcase : C.length ≤ j + (i - U.length)
        · exact ⟨j, hj, hcase, hJj⟩
        · have h1 : j + (i - U.length) < C.length := by omega
          have h2 := hper j h1
          rw [hJj] at h2
          exact ih (C.length - (j + (i - U.length))) (by omega)
            (j + (i - U.length)) rfl h1 h2
    obtain ⟨r, hr1, hr2, hr3⟩ := hasc (C.length - (N.length + 4)) (N.length + 4)
      rfl (by omega) hJ
    have h5 := hocc r hr1
    rw [hr3] at h5
    have h6 : (U ++ C).length ≤ i + r := by
      rw [List.length_append]
      omega
    rw [List.getElem?_append_right h6] at h5
    exact hV (mem_of_getElem?_eq_some h5)

theorem construct_query_data (N : String) :
    (construct_query N).data =
      queryHeadChars ++ ('(' :: '"' :: (N.data ++ clauseTail)) ++
        (if strLower N = "annals of intensive care" then queryTailAnnals
         else queryTailOther) := by
  by_cases h : strLower N = "annals of intensive care" <;>
    simp [construct_query, journal_query, h, queryHeadChars, queryTailAnnals,
      queryTailOther, clauseTail, String.data_append]

theorem journal_clause_data (N : String) :
    ("(" ++ journal_query N ++ ")").data = '(' :: '"' :: (N.data ++ clauseTail) := by
  simp [journal_query, clauseTail, String.data_append]

theorem no_J_queryHeadChars : 'J' ∉ queryHeadChars := by decide

theorem no_J_queryTailAnnals : 'J' ∉ queryTailAnnals := by decide

theorem no_J_queryTailOther : 'J' ∉ queryTailOther := by decide

/-- C9: for every journal name N, `construct_query N` is a function of N
alone (determinism is inherent in the embedding), and the returned query
contains exactly one occurrence of the parenthesized journal-match clause
`("N"[Journal])` with N substituted verbatim. -/
theorem c9_unique_journal_clause (N : String) :
    countOcc ("(" ++ journal_query N ++ ")").data (construct_query N).data = 1 := by
  rw [journal_clause_data, construct_query_data, countOcc_eq_countP]
  set V : List Char :=
    (if strLower N = "annals of intensive care" then queryTailAnnals
     else queryTailOther) with hVdef
  have hV : 'J' ∉ V := by
    rw [hVdef]
    split
    · exact no_J_queryTailAnnals
    · exact no_J_queryTailOther
  set C : List Char := '(' :: '"' :: (N.data ++ clauseTail) with hCdef
  set Q : List Char := queryHeadChars ++ C ++ V with hQdef
  apply countP_range_eq_one _ (Q.length + 1) queryHeadChars.length
  · have : Q.length = queryHeadChars.length + C.length + V.length := by
      simp [hQdef, List.length_append]
      omega
    omega
  · have hdrop : Q.drop queryHeadChars.length = C ++ V := by
      rw [hQdef, List.append_assoc, List.drop_left]
    rw [hdrop]
    exact (isPre_iff _ _).mpr ⟨V, rfl⟩
  · intro i _ hPi
    exact clause_unique_position queryHeadChars V N.data no_J_queryHeadChars hV i hPi

/-- C1 (evaluation at the failing input): `construct_query` prepends
`"NOT "` to `EXCLUSION_QUERY`, which itself already begins with `"NOT ("`,
so the query built for any journal — "Lancet" here — contains the double
negation `"NOT NOT ("` after the main group's closing parenthesis, not a
single negation of the review/meta-analysis/systematic-review disjunction. -/
theorem c1_double_negation :
    containsSub ") NOT NOT (".data (construct_query "Lancet").data = true ∧
    construct_query "Lancet" =
      queryHead "Lancet" ++ "AND " ++ HUMANS_FILTER
        ++ ") NOT NOT (\"systematic review\"[Publication Type] OR \"Meta-Analysis\"[Publication Type] OR \"Review\"[Publication Type])" := by
  constructor
  · decide
  · apply strData_ext
    decide

/-- C4: `construct_query N` omits the human-subjects clause exactly when
N compared case-insensitively equals "Annals of Intensive Care" (the main
group is then closed right after the date clause); for every other N the
clause `"humans"[MeSH Terms]` is ANDed in before the group closes. -/
theorem c4_humans_clause (N : String) :
    (containsSub HUMANS_FILTER.data (construct_query N).data = true ↔
      ¬ strLower N = "annals of intensive care") ∧
    (strLower N = "annals of intensive care" →
      construct_query N = queryHead N ++ ") NOT " ++ EXCLUSION_QUERY) ∧
    (¬ strLower N = "annals of intensive care" →
      construct_query N
        = queryHead N ++ "AND " ++ HUMANS_FILTER ++ ") NOT " ++ EXCLUSION_QUERY) := by
  have heqA : strLower N = "annals of intensive care" →
      construct_query N = queryHead N ++ ") NOT " ++ EXCLUSION_QUERY := by
    intro h
    apply strData_ext
    simp [construct_query, queryHead, h, String.data_append]
  have heqO : ¬ strLower N = "annals of intensive care" →
      construct_query N
        = queryHead N ++ "AND " ++ HUMANS_FILTER ++ ") NOT " ++ EXCLUSION_QUERY := by
    intro h
    apply strData_ext
    simp [construct_query, queryHead, h, String.data_append]
  refine ⟨⟨?_, ?_⟩, heqA, heqO⟩
  · intro hc h
    rw [construct_query_data, if_pos h] at hc
    have h1 := containsSub_map Char.toLower _ _ hc
    simp only [List.map_append, List.map_cons] at h1
    have hN : N.data.map Char.toLower = ("annals of intensive care" : String).data :=
      congrArg String.data h
    rw [hN] at h1
    exact absurd h1 (by decide)
  · intro h
    rw [heqO h]
    apply (containsSub_iff _ _).mpr
    refine ⟨(queryHead N ++ "AND ").data, (") NOT " ++ EXCLUSION_QUERY).data, ?_⟩
    simp [String.data_append]

/-- C4 witness: at the exempt journal (in its spec capitalization) the
humans clause is absent and the group closes right after the date clause;
at "JAMA" the clause is present. -/
theorem c4_humans_witness :
    containsSub HUMANS_FILTER.data (construct_query "Annals of Intensive Care").data = false ∧
    construct_query "Annals of Intensive Care"
      = queryHead "Annals of Intensive Care" ++ ") NOT " ++ EXCLUSION_QUERY ∧
    containsSub HUMANS_FILTER.data (construct_query "JAMA").data = true := by
  have hA : strLower "Annals of Intensive Care" = "annals of intensive care" := by decide
  refine ⟨?_, (c4_humans_clause "Annals of Intensive Care").2.1 hA,
    ((c4_humans_clause "JAMA").1).mpr (by decide)⟩
  rcases hres : containsSub HUMANS_FILTER.data
      (construct_query "Annals of Intensive Care").data with _ | _
  · rfl
  · exact absurd hA ((c4_humans_clause "Annals of Intensive Care").1.mp hres)

theorem searchFourDigits_none_iff (l : List Char) :
    searchFourDigits l = none ↔ ∀ i, fourDigitsAt (l.drop i) = false := by
  induction l with
  | nil =>
    refine ⟨fun _ i => by rw [List.drop_nil]; rfl, fun _ => rfl⟩
  | cons c l ih =>
    rw [searchFourDigits]
    by_cases h : fourDigitsAt (c :: l) = true
    · rw [if_pos h]
      refine ⟨fun hc => Option.noConfusion hc, fun hall => ?_⟩
      have h0 := hall 0
      rw [List.drop_zero, h] at h0
      cases h0
    · rw [if_neg h, ih]
      have hfalse : fourDigitsAt (c :: l) = false := by
        rcases hx : fourDigitsAt (c :: l) with _ | _
        · rfl
        · exact absurd hx h
      constructor
      · intro hall i
        cases i with
        | zero => rw [List.drop_zero]; exact hfalse
        | succ i => rw [List.drop_succ_cons]; exact hall i
      · intro hall i
        have hi := hall (i + 1)
        rwa [List.drop_succ_cons] at hi

theorem searchFourDigits_leftmost (l : List Char) :
    ∀ i, fourDigitsAt (l.drop i) = true →
      (∀ j, j < i → fourDigitsAt (l.drop j) = false) →
      searchFourDigits l = some ((l.drop i).take 4) := by
  induction l with
  | nil =>
    intro i hi _
    rw [List.drop_nil] at hi
    cases hi
  | cons c l ih =>
    intro i hi hmin
    cases i with
    | zero =>
      rw [List.drop_zero] at hi ⊢
      rw [searchFourDigits, if_pos hi]
    | succ i =>
      have h0 : fourDigitsAt (c :: l) = false := by
        have h1 := hmin 0 (Nat.succ_pos i)
        rwa [List.drop_zero] at h1
      rw [searchFourDigits, if_neg (by simp [h0]), List.drop_succ_cons]
      refine ih i (by rwa [List.drop_succ_cons] at hi) (fun j hj => ?_)
      have h2 := hmin (j + 1) (Nat.succ_lt_succ hj)
      rwa [List.drop_succ_cons] at h2

theorem fourDigitsAt_length (x : List Char) (h : fourDigitsAt x = true) :
    4 ≤ x.length := by
  rcases x with _ | ⟨a, x⟩
  · cases h
  rcases x with _ | ⟨b, x⟩
  · cases h
  rcases x with _ | ⟨c, x⟩
  · cases h
  rcases x with _ | ⟨d, x⟩
  · cases h
  simp only [List.length_cons]
  omega

theorem searchFourDigits_length (l m : List Char)
    (h : searchFourDigits l = some m) : m.length = 4 := by
  induction l with
  | nil => cases h
  | cons c l ih =>
    rw [searchFourDigits] at h
    by_cases hf : fourDigitsAt (c :: l) = true
    · rw [if_pos hf] at h
      injection h with h
      have h4 := fourDigitsAt_length _ hf
      rw [← h, List.length_take]
      omega
    · rw [if_neg hf] at h
      exact ih h

theorem yearFrom_eq_empty_iff (s : String) :
    yearFrom s = "" ↔ ∀ i, fourDigitsAt (s.data.drop i) = false := by
  rw [← searchFourDigits_none_iff, yearFrom]
  rcases h : searchFourDigits s.data with _ | m
  · simp
  · constructor
    · intro hm
      have hnil : m = [] := congrArg String.data hm
      have h4 := searchFourDigits_length _ _ h
      rw [hnil] at h4
      cases h4
    · intro hc
      cases hc

/-- Inversion of `process_record`: a successful normalization determines
the date field shape, the post-`LID`-block value `d0`, and every output
field. -/
theorem process_record_inv (rec : RawRecord) (row : Row)
    (h : process_record rec = some row) :
    ∃ dp d0, rec.DP.getD (.str "") = FieldVal.str dp ∧
      lidDoi (rec.LID.getD (.str "")) = some d0 ∧
      row = { Journal_TTL := rec.JT.getD (.str "")
              Journal_ABBRV := rec.TA.getD (.str "")
              Title := rec.TI.getD (.str "")
              Year := yearFrom dp
              Pages := rec.PG.getD (.str "")
              Issue := rec.IP.getD (.str "")
              Volume := rec.VI.getD (.str "")
              First_Author :=
                if pyTruthy (rec.AU.getD (.list [])) then pyFirst (rec.AU.getD (.list [])) else ""
              First_Author_Affiliation :=
                if pyTruthy (rec.AD.getD (.str "")) then pyFirst (rec.AD.getD (.str "")) else ""
              Last_Author :=
                if pyTruthy (rec.AU.getD (.list [])) then pyLast (rec.AU.getD (.list [])) else ""
              Last_Author_Affiliation :=
                if pyTruthy (rec.AD.getD (.str "")) then pyLast (rec.AD.getD (.str "")) else ""
              DOI := if d0 = "" then aidDoi rec.AID else d0
              Link :=
                if pyTruthy (rec.PMID.getD (.str ""))
                then LINK_TEMPLATE (pyStr (rec.PMID.getD (.str ""))) else ""
              Authors := rec.AU.getD (.list []) } := by
  simp only [process_record] at h
  split at h
  · exact absurd h (by simp)
  · rename_i dp hDP
    split at h
    · exact absurd h (by simp)
    · rename_i d0 hL
      injection h with h
      exact ⟨dp, d0, hDP, hL, h.symm⟩

/-- C3 counterexample: on the date-of-publication `"20215"` the code's
Year is `"2021"` (the regex `\d{4}` has no run boundaries), while a "run
of exactly four digits" does not exist in `"20215"`, so the claim's Year
would be `""`: the spec-worded extractor returns `""` on this input. -/
theorem c3_counterexample :
    (process_record { DP := some (FieldVal.str "20215") }).map Row.Year = some "2021" ∧
    specExactFourRun "20215" = "" := ⟨rfl, rfl⟩

/-- C3 (amended): the normalized Year is the four characters at the
*leftmost position where four consecutive digits begin* (a digit run
longer than four yields its first four digits), and is `""` exactly when
no position of the date-of-publication field starts four consecutive
digits (in particular when the field is absent). -/
theorem c3_year_leftmost_window (s : String) :
    (process_record { DP := some (FieldVal.str s) }).map Row.Year = some (yearFrom s) ∧
    (yearFrom s = "" ↔ ∀ i, fourDigitsAt (s.data.drop i) = false) ∧
    (∀ i, fourDigitsAt (s.data.drop i) = true →
      (∀ j, j < i → fourDigitsAt (s.data.drop j) = false) →
      yearFrom s = (⟨(s.data.drop i).take 4⟩ : String)) := by
  refine ⟨rfl, yearFrom_eq_empty_iff s, ?_⟩
  intro i hi hmin
  rw [yearFrom, searchFourDigits_leftmost s.data i hi hmin]

/-- C3 witness: the amended theorem applied at `"Jun 2021"` (and, through
the first conjunct, `"2021 Jun 15"`) yields Year `"2021"`. -/
theorem c3_year_witness :
    (process_record { DP := some (FieldVal.str "Jun 2021") }).map Row.Year = some "2021" ∧
    (process_record { DP := some (FieldVal.str "2021 Jun 15") }).map Row.Year = some "2021" := by
  constructor
  · obtain ⟨h1, _, h3⟩ := c3_year_leftmost_window "Jun 2021"
    rw [h1, h3 4 (by decide) (by decide)]
    rfl
  · obtain ⟨h1, _, h3⟩ := c3_year_leftmost_window "2021 Jun 15"
    rw [h1, h3 0 (by decide) (by decide)]
    rfl

/-- C6: a record in which every optional field is absent normalizes
without failing to the complete fourteen-field row whose components all
default to the empty string (empty list for the author list); the output
schema has exactly fourteen column names. -/
theorem c6_missing_field_defaults :
    process_record {} = some
      { Journal_TTL := FieldVal.str "", Journal_ABBRV := FieldVal.str "",
        Title := FieldVal.str "", Year := "", Pages := FieldVal.str "",
        Issue := FieldVal.str "", Volume := FieldVal.str "",
        First_Author := "", First_Author_Affiliation := "",
        Last_Author := "", Last_Author_Affiliation := "",
        DOI := "", Link := "", Authors := FieldVal.list [] } ∧
    OUTPUT_HEADERS.length = 14 := ⟨rfl, rfl⟩

/-- C2 counterexample: for the scalar affiliation string `"Harvard"`,
`affiliations[0]`/`affiliations[-1]` are Python *string indexing*, so the
normalized first/last affiliations are the one-character strings `"H"` and
`"d"` — not the whole string `"Harvard"` that the claim's single-element-
sequence reading predicts. -/
theorem c2_counterexample :
    (process_record { AD := some (FieldVal.str "Harvard") }).map
        (fun row => (row.First_Author_Affiliation, row.Last_Author_Affiliation))
      = some ("H", "d") ∧ ("H" : String) ≠ "Harvard" :=
  ⟨rfl, by decide⟩

/-- C2 (amended): when the affiliation field is a list, the first/last
normalized affiliations are its first/last elements; but a scalar string
is *not* treated as a single-element sequence — Python indexing applies,
so they are the one-character strings holding its first and last
character; an absent, empty-string or empty-list field gives `""`. -/
theorem c2_affiliation_indexing (rec : RawRecord) (row : Row)
    (h : process_record rec = some row) :
    ((rec.AD = none ∨ rec.AD = some (FieldVal.str "") ∨ rec.AD = some (FieldVal.list [])) →
      row.First_Author_Affiliation = "" ∧ row.Last_Author_Affiliation = "") ∧
    (∀ s c cs, rec.AD = some (FieldVal.str s) → s.data = c :: cs →
      row.First_Author_Affiliation = (⟨[c]⟩ : String)) ∧
    (∀ s cs c, rec.AD = some (FieldVal.str s) → s.data = cs ++ [c] →
      row.Last_Author_Affiliation = (⟨[c]⟩ : String)) ∧
    (∀ a as, rec.AD = some (FieldVal.list (a :: as)) →
      row.First_Author_Affiliation = a) ∧
    (∀ as a, rec.AD = some (FieldVal.list (as ++ [a])) →
      row.Last_Author_Affiliation = a) := by
  obtain ⟨dp, d0, _, _, hrow⟩ := process_record_inv rec row h
  subst hrow
  refine ⟨?_, ?_, ?_, ?_, ?_⟩
  · rintro (hAD | hAD | hAD) <;>
      simp [hAD, pyTruthy, pyFirst, pyLast]
  · intro s c cs hAD hdata
    have hne : ¬ s = "" := fun hc => by
      rw [hc] at hdata
      exact List.noConfusion hdata
    simp only [hAD, Option.getD_some, pyTruthy, pyFirst]
    rw [if_pos (by simp [hne]), hdata]
    rfl
  · intro s cs c hAD hdata
    have hne : ¬ s = "" := fun hc => by
      rw [hc] at hdata
      exact (List.cons_ne_nil c []) (List.append_eq_nil.mp hdata.symm).2
    simp only [hAD, Option.getD_some, pyTruthy, pyLast]
    rw [if_pos (by simp [hne]), hdata]
    have hlen : (cs ++ [c]).length - 1 = cs.length := by simp
    rw [hlen, List.drop_left]
  · intro a as hAD
    simp [hAD, pyTruthy, pyFirst]
  · intro as a hAD
    simp [hAD, pyTruthy, pyFirst, pyLast]

/-- C2 witness: the amended theorem at a two-character scalar `"ab"`
(first/last characters `"a"`, `"b"`) and at a two-element list. -/
theorem c2_affiliation_witness :
    (process_record { AD := some (FieldVal.str "ab") }).map
        (fun row => (row.First_Author_Affiliation, row.Last_Author_Affiliation))
      = some ("a", "b") ∧
    (process_record { AD := some (FieldVal.list ["X Univ", "Y Univ"]) }).map
        (fun row => (row.First_Author_Affiliation, row.Last_Author_Affiliation))
      = some ("X Univ", "Y Univ") := by
  constructor
  · have h : process_record { AD := some (FieldVal.str "ab") } = some
        { Journal_TTL := FieldVal.str "", Journal_ABBRV := FieldVal.str "",
          Title := FieldVal.str "", Year := "", Pages := FieldVal.str "",
          Issue := FieldVal.str "", Volume := FieldVal.str "",
          First_Author := "", First_Author_Affiliation := "a",
          Last_Author := "", Last_Author_Affiliation := "b",
          DOI := "", Link := "", Authors := FieldVal.list [] } := rfl
    have h1 := (c2_affiliation_indexing _ _ h).2.1 "ab" 'a' ['b'] rfl rfl
    have h2 := (c2_affiliation_indexing _ _ h).2.2.1 "ab" ['a'] 'b' rfl rfl
    rw [h]
    exact congrArg some (Prod.ext h1 h2)
  · have h : process_record { AD := some (FieldVal.list ["X Univ", "Y Univ"]) } = some
        { Journal_TTL := FieldVal.str "", Journal_ABBRV := FieldVal.str "",
          Title := FieldVal.str "", Year := "", Pages := FieldVal.str "",
          Issue := FieldVal.str "", Volume := FieldVal.str "",
          First_Author := "", First_Author_Affiliation := "X Univ",
          Last_Author := "", Last_Author_Affiliation := "Y Univ",
          DOI := "", Link := "", Authors := FieldVal.list [] } := rfl
    have h1 := (c2_affiliation_indexing _ _ h).2.2.2.1 "X Univ" ["Y Univ"] rfl
    have h2 := (c2_affiliation_indexing _ _ h).2.2.2.2 ["X Univ"] "Y Univ" rfl
    rw [h]
    exact congrArg some (Prod.ext h1 h2)


theorem doiRegexAt_ne_nil (x m : List Char) (h : doiRegexAt x = some m) :
    m ≠ [] := by
  rcases x with _ | ⟨a, x⟩
  · cases h
  rcases x with _ | ⟨b, x⟩
  · cases h
  rcases x with _ | ⟨c, x⟩
  · cases h
  rw [doiRegexAt] at h
  split at h
  · simp only at h
    split at h
    · cases h
    · injection h with h
      rw [← h]
      exact List.cons_ne_nil _ _
  · cases h

theorem searchDoi_ne_nil (l : List Char) :
    ∀ m, searchDoi l = some m → m ≠ [] := by
  induction l with
  | nil => intro m h; cases h
  | cons c l ih =>
    intro m h
    rw [searchDoi] at h
    rcases hr : doiRegexAt (c :: l) with _ | m'
    · rw [hr] at h
      exact ih m h
    · rw [hr] at h
      injection h with h
      rw [← h]
      exact doiRegexAt_ne_nil _ _ hr

theorem firstDoiAid_eq_find? (l : List String) :
    firstDoiAid l =
      (l.find? (fun a => containsSub "[doi]".data a.data)).map
        (fun a => (⟨splitHead " [doi]".data a.data⟩ : String)) := by
  induction l with
  | nil => rfl
  | cons a l ih =>
    rw [firstDoiAid, List.find?_cons]
    by_cases hc : containsSub "[doi]".data a.data = true
    · rw [if_pos hc, hc]
      rfl
    · have hf : containsSub "[doi]".data a.data = false := by
        rcases hx : containsSub "[doi]".data a.data with _ | _
        · rfl
        · exact absurd hx hc
      rw [if_neg hc, hf, ih]

theorem aidDoi_eq_stepB (rec : RawRecord) : aidDoi rec.AID = spec_doi_stepB rec := by
  rw [spec_doi_stepB]
  rcases hA : rec.AID with _ | v
  · rfl
  · rcases v with s | l
    · show (if containsSub "[doi]".data s.data then (⟨splitHead " [doi]".data s.data⟩ : String)
        else "") = _
      have hent : spec_doi_entries (some (FieldVal.str s)) = [s] := rfl
      rw [hent, List.find?_cons]
      by_cases hc : containsSub "[doi]".data s.data = true
      · rw [if_pos hc, hc]
      · have hf : containsSub "[doi]".data s.data = false := by
          rcases hx : containsSub "[doi]".data s.data with _ | _
          · rfl
          · exact absurd hx hc
        rw [if_neg hc, hf]
        rfl
    · show (firstDoiAid l).getD "" = _
      have hent : spec_doi_entries (some (FieldVal.list l)) = l := rfl
      rw [hent, firstDoiAid_eq_find?]
      rcases hf : l.find? (fun a => containsSub "[doi]".data a.data) with _ | a <;>
        rw [hf] <;> rfl

/-- C5: the DOI of every successfully normalized record follows the
spec's two-stage resolution with strict precedence — the link-identifier
regex match when there is one; only otherwise the article-identifier
`"[doi]"` entry; the empty string when neither matches. -/
theorem c5_doi_two_stage (rec : RawRecord) (row : Row)
    (h : process_record rec = some row) : row.DOI = spec_doi rec := by
  obtain ⟨dp, d0, hDP, hL, hrow⟩ := process_record_inv rec row h
  subst hrow
  show (if d0 = "" then aidDoi rec.AID else d0) = spec_doi rec
  rcases hLv : rec.LID.getD (.str "") with s | l
  · rw [hLv, lidDoi] at hL
    by_cases hs : s = ""
    · rw [if_pos hs] at hL
      injection hL with hL
      have hstepA : spec_doi_stepA rec = none := by
        rw [spec_doi_stepA, hLv, hs]
        rfl
      rw [← hL, if_pos rfl, spec_doi, hstepA]
      exact aidDoi_eq_stepB rec
    · rw [if_neg hs] at hL
      injection hL with hL
      rcases hm : searchDoi s.data with _ | m
      · rw [hm] at hL
        have hL' : "" = d0 := hL
        have hstepA : spec_doi_stepA rec = none := by
          rw [spec_doi_stepA, hLv]
          show (searchDoi s.data).map (fun m => (⟨m⟩ : String)) = none
          rw [hm]
          rfl
        rw [← hL', if_pos rfl, spec_doi, hstepA]
        exact aidDoi_eq_stepB rec
      · rw [hm] at hL
        have hL' : (⟨m⟩ : String) = d0 := hL
        have hne : d0 ≠ "" := by
          rw [← hL']
          intro hc
          exact searchDoi_ne_nil s.data m hm (congrArg String.data hc)
        have hstepA : spec_doi_stepA rec = some ⟨m⟩ := by
          rw [spec_doi_stepA, hLv]
          show (searchDoi s.data).map (fun m => (⟨m⟩ : String)) = some ⟨m⟩
          rw [hm]
          rfl
        rw [if_neg hne, spec_doi, hstepA]
        exact hL'.symm
  · rw [hLv, lidDoi] at hL
    by_cases hl : l.isEmpty = true
    · rw [if_pos hl] at hL
      injection hL with hL
      have hstepA : spec_doi_stepA rec = none := by
        rw [spec_doi_stepA, hLv]
      rw [← hL, if_pos rfl, spec_doi, hstepA]
      exact aidDoi_eq_stepB rec
    · rw [if_neg hl] at hL
      cases hL

/-- C5 witness: a record whose link-identifier is
`"10.1056/NEJMoa2035389 [doi]"` resolves via step (a) to
`"10.1056/NEJMoa2035389"`, in agreement with `spec_doi`. -/
theorem c5_doi_witness :
    (process_record { LID := some (FieldVal.str "10.1056/NEJMoa2035389 [doi]") }).map Row.DOI
      = some "10.1056/NEJMoa2035389" := by
  have h : process_record { LID := some (FieldVal.str "10.1056/NEJMoa2035389 [doi]") } = some
      { Journal_TTL := FieldVal.str "", Journal_ABBRV := FieldVal.str "",
        Title := FieldVal.str "", Year := "", Pages := FieldVal.str "",
        Issue := FieldVal.str "", Volume := FieldVal.str "",
        First_Author := "", First_Author_Affiliation := "",
        Last_Author := "", Last_Author_Affiliation := "",
        DOI := "10.1056/NEJMoa2035389", Link := "", Authors := FieldVal.list [] } := rfl
  rw [h]
  exact congrArg some ((c5_doi_two_stage _ _ h).trans rfl)

theorem firstDoiAid_append_none (l1 rest : List String)
    (h : ∀ a ∈ l1, containsSub "[doi]".data a.data = false) :
    firstDoiAid (l1 ++ rest) = firstDoiAid rest := by
  induction l1 with
  | nil => rfl
  | cons a l1 ih =>
    rw [List.cons_append, firstDoiAid,
      if_neg (by simp [h a (List.mem_cons_self a l1)])]
    exact ih (fun b hb => h b (List.mem_cons_of_mem a hb))

/-- C10: when DOI resolution falls through to the article-identifier
field, a list-valued field is scanned in order — the first entry
containing `"[doi]"` determines the DOI and later matching entries are
ignored — and a scalar field is its own single matching entry
(src/main.py lines 131-133); for any matching entry (list element or
scalar) the DOI is the text before the *first* occurrence of the
space-included separator `" [doi]"`, so an entry in which `"[doi]"` is
never preceded by a space yields the entire entry, marker included. -/
theorem c10_aid_first_entry (l1 l2 : List String) (aid : String)
    (h1 : ∀ a ∈ l1, containsSub "[doi]".data a.data = false)
    (h2 : containsSub "[doi]".data aid.data = true) :
    (∀ row, process_record { AID := some (FieldVal.list (l1 ++ aid :: l2)) } = some row →
      row.DOI = (⟨splitHead " [doi]".data aid.data⟩ : String)) ∧
    (∀ row, process_record { AID := some (FieldVal.str aid) } = some row →
      row.DOI = (⟨splitHead " [doi]".data aid.data⟩ : String)) ∧
    (containsSub " [doi]".data aid.data = false →
      (⟨splitHead " [doi]".data aid.data⟩ : String) = aid) ∧
    (containsSub " [doi]".data aid.data = true →
      ∃ t, aid.data = splitHead " [doi]".data aid.data ++ " [doi]".data ++ t ∧
        ∀ pre t', aid.data = pre ++ " [doi]".data ++ t' →
          (splitHead " [doi]".data aid.data).length ≤ pre.length) := by
  refine ⟨?_, ?_, ?_, ?_⟩
  · intro row h
    obtain ⟨dp, d0, hDP, hL, hrow⟩ := process_record_inv _ row h
    subst hrow
    have h0 : (some "" : Option String) = some d0 := hL
    injection h0 with h0
    show (if d0 = "" then
        aidDoi ({ AID := some (FieldVal.list (l1 ++ aid :: l2)) } : RawRecord).AID else d0)
        = (⟨splitHead " [doi]".data aid.data⟩ : String)
    rw [← h0, if_pos rfl]
    show (firstDoiAid (l1 ++ aid :: l2)).getD "" = _
    rw [firstDoiAid_append_none l1 (aid :: l2) h1, firstDoiAid, if_pos h2]
    rfl
  · intro row h
    obtain ⟨dp, d0, hDP, hL, hrow⟩ := process_record_inv _ row h
    subst hrow
    have h0 : (some "" : Option String) = some d0 := hL
    injection h0 with h0
    show (if d0 = "" then
        aidDoi ({ AID := some (FieldVal.str aid) } : RawRecord).AID else d0)
        = (⟨splitHead " [doi]".data aid.data⟩ : String)
    rw [← h0, if_pos rfl]
    show (if containsSub "[doi]".data aid.data
        then (⟨splitHead " [doi]".data aid.data⟩ : String) else "") = _
    rw [if_pos h2]
  · intro hns
    exact strData_ext _ _ (splitHead_of_not_contains _ _ hns)
  · intro hsp
    obtain ⟨t, ht⟩ := splitHead_append " [doi]".data aid.data hsp
    exact ⟨t, ht, fun pre t' ht' => splitHead_min " [doi]".data pre aid.data t' ht'⟩

/-- C10 witness: among list-valued article identifiers the first
`"[doi]"` entry wins (a later matching entry is ignored) and the text
before `" [doi]"` is taken; a scalar article-identifier field behaves
the same way; and a `"[doi]"` not preceded by a space leaves the whole
entry, marker included. -/
theorem c10_aid_witness :
    (process_record { AID := some (FieldVal.list
        ["S0140-6736(21)00001-0 [pii]", "10.1016/j.jcrc.1 [doi]", "later [doi]"]) }).map Row.DOI
      = some "10.1016/j.jcrc.1" ∧
    (process_record { AID := some (FieldVal.str "10.1136/bmj.n71 [doi]") }).map Row.DOI
      = some "10.1136/bmj.n71" ∧
    (process_record { AID := some (FieldVal.str "abc[doi]") }).map Row.DOI
      = some "abc[doi]" := by
  refine ⟨?_, ?_, ?_⟩
  · have h : process_record { AID := some (FieldVal.list
        ["S0140-6736(21)00001-0 [pii]", "10.1016/j.jcrc.1 [doi]", "later [doi]"]) } = some
        { Journal_TTL := FieldVal.str "", Journal_ABBRV := FieldVal.str "",
          Title := FieldVal.str "", Year := "", Pages := FieldVal.str "",
          Issue := FieldVal.str "", Volume := FieldVal.str "",
          First_Author := "", First_Author_Affiliation := "",
          Last_Author := "", Last_Author_Affiliation := "",
          DOI := "10.1016/j.jcrc.1", Link := "", Authors := FieldVal.list [] } := rfl
    rw [h]
    exact congrArg some
      (((c10_aid_first_entry ["S0140-6736(21)00001-0 [pii]"] ["later [doi]"]
        "10.1016/j.jcrc.1 [doi]" (by decide) (by decide)).1 _ h).trans rfl)
  · have h : process_record { AID := some (FieldVal.str "10.1136/bmj.n71 [doi]") } = some
        { Journal_TTL := FieldVal.str "", Journal_ABBRV := FieldVal.str "",
          Title := FieldVal.str "", Year := "", Pages := FieldVal.str "",
          Issue := FieldVal.str "", Volume := FieldVal.str "",
          First_Author := "", First_Author_Affiliation := "",
          Last_Author := "", Last_Author_Affiliation := "",
          DOI := "10.1136/bmj.n71", Link := "", Authors := FieldVal.list [] } := rfl
    rw [h]
    exact congrArg some
      (((c10_aid_first_entry [] [] "10.1136/bmj.n71 [doi]"
        (by simp) (by decide)).2.1 _ h).trans rfl)
  · have h : process_record { AID := some (FieldVal.str "abc[doi]") } = some
        { Journal_TTL := FieldVal.str "", Journal_ABBRV := FieldVal.str "",
          Title := FieldVal.str "", Year := "", Pages := FieldVal.str "",
          Issue := FieldVal.str "", Volume := FieldVal.str "",
          First_Author := "", First_Author_Affiliation := "",
          Last_Author := "", Last_Author_Affiliation := "",
          DOI := "abc[doi]", Link := "", Authors := FieldVal.list [] } := rfl
    rw [h]
    have hval := (c10_aid_first_entry [] [] "abc[doi]" (by simp) (by decide)).2.1 _ h
    have hns := (c10_aid_first_entry [] [] "abc[doi]" (by simp) (by decide)).2.2.1 (by decide)
    exact congrArg some (hval.trans hns)

theorem processAll_foldl (recs : List RawRecord) :
    ∀ acc, recs.foldl appendProcessed acc = acc ++ recs.filterMap process_record := by
  induction recs with
  | nil => intro acc; simp
  | cons r recs ih =>
    intro acc
    rw [List.foldl_cons, ih, appendProcessed]
    rcases h : process_record r with _ | row <;>
      simp [List.filterMap_cons, h]

theorem processAll_eq_filterMap (recs : List RawRecord) :
    processAll recs = recs.filterMap process_record := by
  rw [processAll, processAll_foldl]
  rfl

/-- C7: a record whose normalization fails (the caught-exception path
returning the falsy empty dict) contributes no row at all — removing it
from the batch leaves the accumulated ResultSet unchanged — and every row
that does appear is the complete output of `process_record` on some
record of the batch: partial rows do not exist. -/
theorem c7_failed_record_dropped (pre post : List RawRecord) (rec : RawRecord)
    (h : process_record rec = none) :
    processAll (pre ++ rec :: post) = processAll (pre ++ post) ∧
    ∀ row ∈ processAll (pre ++ rec :: post),
      ∃ r, r ∈ pre ++ rec :: post ∧ process_record r = some row := by
  constructor
  · rw [processAll_eq_filterMap, processAll_eq_filterMap,
      List.filterMap_append, List.filterMap_append]
    simp [List.filterMap_cons, h]
  · intro row hrow
    rw [processAll_eq_filterMap] at hrow
    obtain ⟨r, hr, hfr⟩ := List.mem_filterMap.mp hrow
    exact ⟨r, hr, hfr⟩

/-- C7 witness: a record whose date field is a list makes `re.search`
raise; it is dropped and the batch of that one record yields no rows. -/
theorem c7_dropped_witness :
    process_record { DP := some (FieldVal.list ["2021"]) } = none ∧
    processAll [{ DP := some (FieldVal.list ["2021"]) }] = [] := by
  have h : process_record { DP := some (FieldVal.list ["2021"]) } = none := rfl
  refine ⟨h, ?_⟩
  have h2 := (c7_failed_record_dropped [] [] _ h).1
  simpa using h2

/-- C8: `fetch_records` converts a Search Service exception, a Fetch
Service exception, and an empty identifier list alike into the empty
record list — no collaborator exception propagates — and on an empty
identifier list its result does not depend on the Fetch Service at all
(the fetch call is never made). -/
theorem c8_fetch_error_handling (e : String) (ids : List String)
    (f g : List String → Except String (List RawRecord)) :
    fetch_records (Except.error e) f = [] ∧
    (f ids = Except.error e → fetch_records (Except.ok ids) f = []) ∧
    fetch_records (Except.ok []) f = [] ∧
    fetch_records (Except.ok []) f = fetch_records (Except.ok []) g := by
  refine ⟨rfl, ?_, rfl, rfl⟩
  intro hf
  rcases ids with _ | ⟨i, ids⟩
  · rfl
  · rw [fetch_records]
    simp only [List.isEmpty_cons, Bool.false_eq_true, if_false]
    rw [hf]

/-- C8 witness: a failing search yields `[]`; a failing fetch on a
nonempty identifier list yields `[]`. -/
theorem c8_fetch_witness :
    fetch_records (Except.error "search failed")
      (fun _ => Except.ok ([] : List RawRecord)) = [] ∧
    fetch_records (Except.ok ["101"]) (fun _ => Except.error "fetch failed") = [] := by
  refine ⟨(c8_fetch_error_handling "search failed" []
    (fun _ => Except.ok ([] : List RawRecord)) (fun _ => Except.ok [])).1, ?_⟩
  exact (c8_fetch_error_handling "fetch failed" ["101"]
    (fun _ => Except.error "fetch failed") (fun _ => Except.ok [])).2.1 rfl

/-- C9 witness: at the concrete journal "Lancet" the built query contains
the clause `("Lancet"[Journal])` exactly once. -/
theorem c9_unique_clause_witness :
    countOcc ("(" ++ journal_query "Lancet" ++ ")").data
      (construct_query "Lancet").data = 1 :=
  c9_unique_journal_clause "Lancet"
